import Mathlib

set_option maxHeartbeats 1000000

/-!
Shallow embedding of the factomd ProcessList core (src/state/processList.go).
Pure data is modelled with Nat and List; Go pointers that may be nil become
Option; a Go panic becomes the Option.none result of the operation.
External collaborators (elections queue, broadcast, the Holding and Acks
look-aside maps, the Replay filter, msg.Process) either do not feed back into
the control flow inside this file or are supplied as explicit oracle inputs.
-/

namespace Factomd

/-- Symbolic 32-byte hash values.  primitives.CreateHash of two hashes is
modelled by the free pair constructor, so distinct argument pairs give
distinct results (hash collisions are assumed not to occur); marshalling
errors of CreateHash are not representable, the err branch of the caller is
therefore dead in this model. -/
inductive Hash where
  | base : Nat → Hash
  | pair : Hash → Hash → Hash
deriving DecidableEq

/-- primitives.CreateHash(h1, h2). -/
def createHash (a b : Hash) : Hash := Hash.pair a b

/-- The fields of interfaces.IMsg that the ProcessList core reads.
Timestamps are milliseconds as Nat. -/
structure Msg where
  msgHash : Hash
  repeatHash : Hash
  timestamp : Nat
deriving DecidableEq

/-- The fields of messages.Ack that the ProcessList core reads. -/
structure Ack where
  vmIndex : Nat
  dbHeight : Nat
  height : Nat
  serialHash : Hash
  messageHash : Hash
  leaderChainID : Nat
  saltNumber : Nat
  response : Bool
  timestamp : Nat
  minute : Nat
deriving DecidableEq

/-- A Server record: only the chain id bytes matter to the core ordering
logic (Name, Online, Replace never feed back into the embedded code). -/
structure Server where
  chainID : List Nat
deriving DecidableEq

/-- The fields of messages.MissingMsg the core fills in Ask.
Modelled from the spec: messages.NewMissingMsg is not under src; per the spec
it seeds the request with askFor = len(list) as its first asked height. -/
structure MissingMsg where
  vmIndex : Nat
  dbHeight : Nat
  processListHeight : List Nat
deriving DecidableEq

/-- One virtual machine (type VM in processList.go).  List entries are
Option because Go stores nil interface values in the slices.  MMRequests, a
map from int to bool, is modelled as the Option of the list of heights mapped
to true (Option.none is the nil map). -/
structure VM where
  list : List (Option Msg)
  listAck : List (Option Ack)
  height : Nat
  eomMinuteIssued : Nat
  leaderMinute : Nat
  synced : Bool
  heartBeat : Nat
  signed : Bool
  whenFaulted : Nat
  faultFlag : Nat
  mmRequests : Option (List Nat)
  mmAskTime : Nat
  processTime : Nat
deriving DecidableEq

/-- The capabilities of *State that the embedded code consumes, plus the
counters it writes.  getSalt is an arbitrary function of the timestamp
(deterministic, like the source).  resetCalled records an invocation of
state.Reset(); the State.Reset body is not under src.
Modelled from the spec: state.Reset() discards in-memory state for the height
so it can be rebuilt, and the spec test expectation keeps VM height unchanged
across the call, so it is recorded as a flag and touches no VM. -/
structure StateM where
  highestSavedBlk : Nat
  identityChainID : Nat
  salt : Nat → Nat
  highestAck : Nat
  now : Nat
  syncing : Bool
  waitForEntries : Bool
  entryDBHeightComplete : Nat
  oneLeader : Bool
  inMsgQueueLen : Nat
  missingRequestAskCnt : Nat
  plProcessHeight : Nat
  resetCalled : Bool

/-- The ProcessList fields the claims touch.  Mutexes, block accumulators,
look-aside maps, DBSignatures and the System VM are omitted: nothing in the
embedded operations reads them back. -/
structure ProcessList where
  dbHeight : Nat
  vms : List VM
  fedServers : List Server
  auditServers : List Server
  serverMap : List (List Nat)
  nextHeightToProcess : Nat → Nat

/-- Oracle decisions taken by external collaborators during one Process
call: the Replay filter verdict and the msg.Process result for VM i at
slot j.  Any concrete execution of the source is some instantiation. -/
structure ProcEnv where
  replayValid : Nat → Nat → Bool
  procOk : Nat → Nat → Bool

/-- 2 to the power 32, for Go uint32 wrap-around. -/
def U32MOD : Nat := 4294967296

/-- Go uint32 subtraction a - b (wrap-around), for inputs below U32MOD. -/
def u32sub (a b : Nat) : Nat := (a + U32MOD - b % U32MOD) % U32MOD

/-- Reading vm.MMRequests[h] in Go: a nil map reads as false. -/
def mmLookup : Option (List Nat) → Nat → Bool
  | none, _ => false
  | some l, h => l.contains h

/-- Indices k with vm.List[k] == nil, in ascending order (the order the Ask
loop visits them). -/
def nilIndices (l : List (Option Msg)) : List Nat :=
  (List.range l.length).filter (fun k => decide (l.get? k = some none))

/-- constants.INMSGQUEUE_MED.  The constants package is not under src; the
exact value never matters to the theorems below, only that it is a fixed
threshold. -/
def INMSGQUEUE_MED : Nat := 2000

/-- ProcessList.Ask(vmIndex, height).  Returns the updated VM and StateM and
the MissingMsg broadcast, if one was sent.  The vmIndex < 0 panic of the
source is unrepresentable with Nat indices. -/
def ask (st : StateM) (dbh vmIndex height : Nat) (vm : VM) :
    VM × StateM × Option MissingMsg :=
  let now := st.now
  let deltaT : Int := (now : Int) - (vm.mmAskTime : Int)
  if vm.mmRequests = none ∨ mmLookup vm.mmRequests height = false ∨ 2000 ≤ deltaT then
    if mmLookup vm.mmRequests height = true ∧ INMSGQUEUE_MED < st.inMsgQueueLen then
      (vm, st, none)
    else
      let req0 : MissingMsg :=
        { vmIndex := vmIndex, dbHeight := dbh, processListHeight := [vm.list.length] }
      let req := { req0 with processListHeight := req0.processListHeight ++ nilIndices vm.list }
      ( { vm with mmAskTime := now,
                  mmRequests := some (vm.list.length :: nilIndices vm.list) },
        { st with missingRequestAskCnt := st.missingRequestAskCnt + 1 },
        some req )
  else (vm, st, none)

/-- Modelled from the spec: markFault is not under src; per spec section 4.8
it sets vm.whenFaulted to now when it is zero and sets vm.faultFlag. -/
def markFault (now flag : Nat) (vm : VM) : VM :=
  { vm with whenFaulted := if vm.whenFaulted = 0 then now else vm.whenFaulted,
            faultFlag := flag }

/-- Modelled from the spec: markNoFault is not under src; per spec section
4.8 it clears vm.whenFaulted and vm.faultFlag. -/
def markNoFault (vm : VM) : VM :=
  { vm with whenFaulted := 0, faultFlag := 0 }

/-- Modelled from the spec: FaultCheck is not under src; per spec section 4.8
it only propagates fault expirations to the external elections queue, so on
the modelled state it is the identity. -/
def faultCheck (pl : ProcessList) : ProcessList := pl

/-- The fault bookkeeping at the top of the per-VM body of Process
(processList.go lines 767 to 779). -/
def faultBookkeeping (st : StateM) (vm : VM) : VM :=
  if st.syncing = false then markNoFault vm
  else if vm.synced = false then
    (if vm.whenFaulted = 0 then markFault st.now 0 vm else vm)
  else if vm.faultFlag = 0 then markNoFault vm else vm

/-- The VMListLoop of ProcessList.Process for one VM, from slot j.  fuel is a
structural bound, always called with more fuel than remaining slots.  Result:
none models a Go panic (nil Ack dereference / index out of range); otherwise
the updated VM, StateM, NextHeightToProcess row map, progress flag, and a
final flag that is true when the serial-hash conflict forced a return from
the whole Process call.  The Replay bookkeeping (IsTSValid_) and the Acks and
Holding deletions update external state only and are not modelled. -/
def vmLoop (env : ProcEnv) (i dbh : Nat) (st : StateM) (vm : VM)
    (nhtp : Nat → Nat) (j fuel : Nat) (progress : Bool) :
    Option (VM × StateM × (Nat → Nat) × Bool × Bool) :=
  match fuel with
  | 0 => some (vm, st, nhtp, progress, false)
  | Nat.succ fuel =>
    match vm.list.get? j with
    | none => some (vm, st, nhtp, progress, false)
    | some none =>
      let a := ask st dbh i j vm
      some (a.1, a.2.1, nhtp, progress, false)
    | some (some _) =>
      match vm.listAck.get? j with
      | none => none
      | some none => none
      | some (some thisAck) =>
        let serialCheck : Option Bool :=
          if vm.height = 0 then some false
          else
            match vm.listAck.get? (vm.height - 1) with
            | none => none
            | some none => none
            | some (some last) =>
              some (decide (createHash last.messageHash thisAck.messageHash ≠ thisAck.serialHash))
        match serialCheck with
        | none => none
        | some true =>
          some (vm, { st with resetCalled := true }, nhtp, progress, true)
        | some false =>
          let diff := u32sub dbh st.entryDBHeightComplete
          if st.waitForEntries = false ∨ (vm.leaderMinute < 2 ∧ diff ≤ 3) ∨ diff ≤ 2 then
            let nhtp1 := fun k => if k = i then j + 1 else nhtp k
            if env.replayValid i j = false then
              some ({ vm with list := vm.list.set j none }, st, nhtp1, progress, false)
            else
              let vm1 := { vm with processTime := st.now }
              if env.procOk i j then
                vmLoop env i dbh st { vm1 with heartBeat := 0, height := j + 1 }
                  nhtp1 (j + 1) fuel true
              else some (vm1, st, nhtp1, progress, false)
          else some (vm, st, nhtp, progress, false)

/-- The two conditional missing-message Asks that precede the VM list walk
(processList.go lines 783 to 791): one for a missing EOM while syncing, one
after 2000 ms without progress. -/
def preLoop (st : StateM) (dbh i : Nat) (vm : VM) : VM × StateM :=
  let s1 : VM × StateM :=
    if vm.height = vm.list.length ∧ st.syncing = true ∧ vm.synced = false then
      let a := ask st dbh i vm.height vm
      (a.1, a.2.1)
    else (vm, st)
  if s1.1.height = s1.1.list.length ∧
      2000 < (s1.2.now : Int) - (s1.1.processTime : Int) then
    let a := ask s1.2 dbh i s1.1.height s1.1
    (a.1, a.2.1)
  else s1

/-- The per-federated-server loop of ProcessList.Process, over the remaining
VM indices.  none models a Go panic. -/
def procVMs (env : ProcEnv) : StateM → ProcessList → List Nat → Bool →
    Option (ProcessList × StateM × Bool)
  | st, pl, [], progress => some (pl, st, progress)
  | st, pl, i :: rest, progress =>
    match pl.vms.get? i with
    | none => none
    | some vm0 =>
      let vm1 := faultBookkeeping st vm0
      let pl1 := faultCheck pl
      let s := preLoop st pl1.dbHeight i vm1
      match vmLoop env i pl1.dbHeight s.2 s.1 pl1.nextHeightToProcess
          s.1.height (s.1.list.length + 1) progress with
      | none => none
      | some (vm2, st2, nhtp2, progress2, returnAll) =>
        let pl2 := { pl1 with vms := pl1.vms.set i vm2, nextHeightToProcess := nhtp2 }
        if returnAll then some (pl2, st2, progress2)
        else procVMs env st2 pl2 rest progress2

/-- ProcessList.Process(state).  Returns none on a Go panic, otherwise the
updated ProcessList and StateM and the progress flag. -/
def process (env : ProcEnv) (st : StateM) (pl : ProcessList) :
    Option (ProcessList × StateM × Bool) :=
  if pl.dbHeight ≤ st.highestSavedBlk then some (pl, st, true)
  else
    let st1 := { st with plProcessHeight := pl.dbHeight }
    procVMs env st1 pl (List.range pl.fedServers.length) false

/-- Grow a VM slice with nils until index n is addressable, as the
admission loop (for len(vm.List) <= int(ack.Height)) does. -/
def growTo (l : List (Option α)) (n : Nat) : List (Option α) :=
  l ++ List.replicate (n + 1 - l.length) none

/-- The conflicting-message branch of AddToProcessList: null the message
slot, leaving the ack slot untouched (processList.go line 1047). -/
def vmDropSlot (vm : VM) (h : Nat) : VM :=
  { vm with list := vm.list.set h none }

/-- The successful admission: clear the heartbeat, grow both slices in
lockstep and write the slot pair (processList.go lines 1055 and 1072-1079). -/
def vmFill (vm : VM) (h : Nat) (m : Msg) (ack : Ack) : VM :=
  { vm with heartBeat := 0,
            list := (growTo vm.list h).set h (some m),
            listAck := (growTo vm.listAck h).set h (some ack) }

/-- AddToProcessList after the self-identity check.  isNew is the verdict of
state.Replay.Valid on the incoming message (an external oracle).  The source
tests slot occupancy twice around the dbHeight check; the slot cannot change
in between, so a single match covers both tests.  The toss closure, the
non-local and peer-to-peer flag writes, the broadcasts and the OldMsgs and
OldAcks recording act on external state only and are not modelled. -/
def addToProcessListRest (st : StateM) (pl : ProcessList) (ack : Ack) (m : Msg)
    (isNew : Bool) : Option (ProcessList × StateM) :=
  match pl.vms.get? ack.vmIndex with
  | none => none
  | some vm =>
    match vm.list.get? ack.height with
    | some (some stored) =>
      if isNew = false then some (pl, st)
      else if ack.dbHeight ≠ pl.dbHeight then some (pl, st)
      else if stored.msgHash = m.msgHash then some (pl, st)
      else some ({ pl with vms := pl.vms.set ack.vmIndex (vmDropSlot vm ack.height) }, st)
    | _ =>
      if ack.dbHeight ≠ pl.dbHeight then some (pl, st)
      else some ({ pl with vms := pl.vms.set ack.vmIndex (vmFill vm ack.height m ack) }, st)

/-- The HighestAck update at the top of AddToProcessList (processList.go
lines 989 to 991). -/
def bumpHighestAck (st : StateM) (ack : Ack) : StateM :=
  if st.highestAck < ack.dbHeight ∧ 0 < ack.minute
  then { st with highestAck := ack.dbHeight } else st

/-- ProcessList.AddToProcessList(ack, m).  The nil ProcessList and nil ack
guards of the source are unrepresentable here.  none models the fatal
duplicate-identity panic. -/
def addToProcessList (st0 : StateM) (pl : ProcessList) (ack : Ack) (m : Msg)
    (isNew : Bool) : Option (ProcessList × StateM) :=
  let st := bumpHighestAck st0 ack
  if ack.response = false ∧ ack.leaderChainID = st.identityChainID then
    if ((st.now / 1000 : Nat) : Int) - ((ack.timestamp / 1000 : Nat) : Int) > 120 then
      some (pl, st)
    else if st.salt ack.timestamp ≠ ack.saltNumber then
      none
    else addToProcessListRest st pl ack m isNew
  else addToProcessListRest st pl ack m isNew

/-- One observable operation of the outer pump against the ProcessList, with
the external state and oracles it runs under. -/
inductive Op where
  | add (st : StateM) (ack : Ack) (m : Msg) (isNew : Bool)
  | procO (st : StateM) (env : ProcEnv)

/-- Run a sequence of admissions and processor calls.  A panicking call ends
the node; no further state exists, so the sequence result is the last
pre-panic ProcessList. -/
def runOps (pl : ProcessList) : List Op → ProcessList
  | [] => pl
  | Op.add st ack m isNew :: rest =>
    match addToProcessList st pl ack m isNew with
    | none => pl
    | some (pl1, _) => runOps pl1 rest
  | Op.procO st env :: rest =>
    match process env st pl with
    | none => pl
    | some (pl1, _, _) => runOps pl1 rest

/-- bytes.Compare on chain-id byte strings: lexicographic, a strict prefix
is smaller. -/
def bytesCompare : List Nat → List Nat → Ordering
  | [], [] => Ordering.eq
  | [], _ :: _ => Ordering.lt
  | _ :: _, [] => Ordering.gt
  | a :: as, b :: bs =>
    if a < b then Ordering.lt
    else if b < a then Ordering.gt
    else bytesCompare as bs

/-- Not-greater, the order SortServers leaves adjacent entries in. -/
def bytesLe (a b : List Nat) : Prop := bytesCompare a b ≠ Ordering.gt

instance : DecidablePred fun p : List Nat × List Nat => bytesLe p.1 p.2 :=
  fun _ => instDecidableNot

instance (a b : List Nat) : Decidable (bytesLe a b) := instDecidableNot

/-- One left-to-right bubble pass of SortServers; the Bool is the done flag
(no swap happened).  The source bounds pass i to the first len-i entries;
the excluded tail already holds the i largest entries in order, where the
full pass finds no swap, so the unbounded pass computes the same slice and
the same flag. -/
def bubblePass : List Server → List Server × Bool
  | [] => ([], true)
  | [a] => ([a], true)
  | a :: b :: rest =>
    if bytesCompare a.chainID b.chainID = Ordering.gt then
      let r := bubblePass (a :: rest)
      (b :: r.1, false)
    else
      let r := bubblePass (b :: rest)
      (a :: r.1, r.2)

/-- The outer loop of SortServers: at most n passes, stopping early on a
clean pass. -/
def sortPasses (l : List Server) : Nat → List Server
  | 0 => l
  | Nat.succ n =>
    let r := bubblePass l
    if r.2 then r.1 else sortPasses r.1 n

/-- SortServers (processList.go lines 240 to 258). -/
def sortServers (l : List Server) : List Server :=
  sortPasses l (l.length - 1)

/-- The scan shared by GetFedServerIndexHash and GetAuditServerIndexHash:
(true, index of first chain-id match) or (false, length). -/
def findIndexEq (id : List Nat) : List Server → Bool × Nat
  | [] => (false, 0)
  | s :: rest =>
    if s.chainID = id then (true, 0)
    else
      let r := findIndexEq id rest
      (r.1, r.2 + 1)

/-- The append-nil / copy / write insertion used by AddFedServer and
AddAuditServer. -/
def insertIdxAt (l : List Server) (i : Nat) (s : Server) : List Server :=
  l.take i ++ s :: l.drop i

/-- The chain ids of a server list. -/
def chainIDs (l : List Server) : List (List Nat) := l.map Server.chainID

/-- MakeMap fill: n slots starting at indx, stepping (indx+1) mod n; also
returns the index left for the next row. -/
def makeMapFill (n : Nat) : Nat → Nat → List Nat × Nat
  | indx, 0 => ([], indx)
  | indx, Nat.succ j =>
    let r := makeMapFill n ((indx + 1) % n) j
    (indx :: r.1, r.2)

/-- MakeMap rows: each minute advances the index once, then fills the n
active columns; the remaining columns keep the Go zero value. -/
def makeMapRows (n : Nat) : Nat → Nat → List (List Nat)
  | _, 0 => []
  | indx, Nat.succ r =>
    let indx1 := (indx + 1) % n
    let f := makeMapFill n indx1 n
    (f.1 ++ List.replicate (64 - n) 0) :: makeMapRows n f.2 r

/-- MakeMap(numberFedServers, dbheight) (processList.go lines 379 to 391).
The dbheight*131 product is Go uint32 arithmetic. -/
def makeMap (n dbh : Nat) : List (List Nat) :=
  if 0 < n then makeMapRows n (dbh * 131 % U32MOD % n) 10
  else List.replicate 10 (List.replicate 64 0)

/-- ProcessList.AddFedServer (processList.go lines 445 to 487): sort, look
up, promote from audit if needed, insert at the returned index (the end of
the list when absent), recompute the server map.  The elections
AddLeaderInternal enqueue and the debug prints touch external state only. -/
def addFedServer (pl0 : ProcessList) (id : List Nat) : ProcessList × Nat :=
  let pl := { pl0 with fedServers := sortServers pl0.fedServers }
  let r := findIndexEq id pl.fedServers
  if r.1 then (pl, r.2)
  else
    let auditFound := (findIndexEq id pl.auditServers).1
    let pl1 :=
      if auditFound then
        let ra := findIndexEq id pl.auditServers
        { pl with auditServers := pl.auditServers.eraseIdx ra.2 }
      else pl
    let pl2 := { pl1 with fedServers := insertIdxAt pl1.fedServers r.2 { chainID := id } }
    ({ pl2 with serverMap := makeMap pl2.fedServers.length pl2.dbHeight }, r.2)

/-- ProcessList.RemoveAuditServerHash (processList.go lines 540 to 555). -/
def removeAuditServerHash (pl : ProcessList) (id : List Nat) : ProcessList :=
  let r := findIndexEq id pl.auditServers
  if r.1 then { pl with auditServers := pl.auditServers.eraseIdx r.2 }
  else pl

/-- ProcessList.RemoveFedServerHash (processList.go lines 520 to 537): when
the id is not federated, fall back to audit removal (SOF-201). -/
def removeFedServerHash (pl : ProcessList) (id : List Nat) : ProcessList :=
  let r := findIndexEq id pl.fedServers
  if r.1 then
    let pl1 := { pl with fedServers := pl.fedServers.eraseIdx r.2 }
    { pl1 with serverMap := makeMap pl1.fedServers.length pl1.dbHeight }
  else removeAuditServerHash pl id

/-- ProcessList.AddAuditServer (processList.go lines 491 to 517): look up,
demote from federated if needed, insert at the returned index; the server
map is not recomputed. -/
def addAuditServer (pl : ProcessList) (id : List Nat) : ProcessList × Nat :=
  let r := findIndexEq id pl.auditServers
  if r.1 then (pl, r.2)
  else
    let fedFound := (findIndexEq id pl.fedServers).1
    let pl1 := if fedFound then removeFedServerHash pl id else pl
    ({ pl1 with auditServers := insertIdxAt pl1.auditServers r.2 { chainID := id } }, r.2)

/-- The per-VM scan of Complete; Option.none models the Go index panic when
a federated index has no VM slot. -/
def completeVMs (pl : ProcessList) : List Nat → Option Bool
  | [] => some true
  | i :: rest =>
    match pl.vms.get? i with
    | none => none
    | some vm =>
      if vm.leaderMinute < 10 then some false
      else if vm.height < vm.list.length then some false
      else completeVMs pl rest

/-- ProcessList.Complete (processList.go lines 207 to 224); the receiver may
be a nil pointer, hence the Option. -/
def complete (st : StateM) : Option ProcessList → Option Bool
  | none => some false
  | some pl =>
    if pl.dbHeight ≤ st.highestSavedBlk then some true
    else completeVMs pl (List.range pl.fedServers.length)

/-- 2 to the power 64, for Go uint64 wrap-around. -/
def U64MOD : Nat := 18446744073709551616

/-- ProcessList.VMIndexFor(hash) (processList.go lines 227 to 238).  The sum
accumulates in a Go uint64; with no federated servers and no single-leader
mode the modulo divides by zero and Go panics, hence the Option. -/
def vmIndexFor (st : StateM) (pl : ProcessList) (hash : List Nat) : Option Nat :=
  if st.oneLeader then some 0
  else
    let v := hash.foldl (fun v b => (v + b) % U64MOD) 0
    if pl.fedServers.length = 0 then none
    else some (v % pl.fedServers.length)

/-- The zero-value VM the constructor builds 65 of (Synced true, ProcessTime
now, everything else the Go zero value). -/
def newVM (now : Nat) : VM :=
  { list := [], listAck := [], height := 0, eomMinuteIssued := 0, leaderMinute := 0,
    synced := true, heartBeat := 0, signed := false, whenFaulted := 0, faultFlag := 0,
    mmRequests := none, mmAskTime := 0, processTime := now }

/-- NewProcessList restricted to the claim-relevant state: the federated and
audit server lists carried over from the previous list (or the bootstrap
identity), 65 zero VMs, and the recomputed server map.  Block accumulators,
maps and locks are external to the claims. -/
def newProcessList (feds auds : List Server) (dbh now : Nat) : ProcessList :=
  { dbHeight := dbh,
    vms := List.replicate 65 (newVM now),
    fedServers := feds,
    auditServers := auds,
    serverMap := makeMap feds.length dbh,
    nextHeightToProcess := fun _ => 0 }

/-- The per-VM structural invariant: parallel slices, bounded height, a
non-nil message slot always has its ack, and every processed slot keeps its
ack. -/
def vmInv (vm : VM) : Prop :=
  vm.list.length = vm.listAck.length ∧
  vm.height ≤ vm.list.length ∧
  (∀ k m, vm.list.get? k = some (some m) → ∃ a, vm.listAck.get? k = some (some a)) ∧
  (∀ k, k < vm.height → ∃ a, vm.listAck.get? k = some (some a))

/-- The invariant over all VM slots of a ProcessList. -/
def plInv (pl : ProcessList) : Prop := ∀ vm ∈ pl.vms, vmInv vm

/-- Per-list uniqueness and cross-list disjointness of the membership
chain ids. -/
def membOK (pl : ProcessList) : Prop :=
  (chainIDs pl.fedServers).Nodup ∧ (chainIDs pl.auditServers).Nodup ∧
  ∀ c ∈ chainIDs pl.fedServers, c ∉ chainIDs pl.auditServers

/-- Both membership lists ascending by chain-id bytes. -/
def membSorted (pl : ProcessList) : Prop :=
  pl.fedServers.Pairwise (fun a b => bytesLe a.chainID b.chainID) ∧
  pl.auditServers.Pairwise (fun a b => bytesLe a.chainID b.chainID)

instance (pl : ProcessList) : Decidable (membOK pl) := by
  unfold membOK; infer_instance

instance (pl : ProcessList) : Decidable (membSorted pl) := by
  unfold membSorted; infer_instance

/-! Concrete fixtures used by witnesses and counterexamples. -/

/-- A concrete state snapshot. -/
def stC : StateM :=
  { highestSavedBlk := 0, identityChainID := 7, salt := fun _ => 3, highestAck := 0,
    now := 1000, syncing := false, waitForEntries := false, entryDBHeightComplete := 0,
    oneLeader := false, inMsgQueueLen := 0, missingRequestAskCnt := 0,
    plProcessHeight := 0, resetCalled := false }

/-- A concrete non-self acknowledgement for slot 0 of VM 0 at height 0. -/
def ackC : Ack :=
  { vmIndex := 0, dbHeight := 0, height := 0, serialHash := Hash.base 0,
    messageHash := Hash.base 1, leaderChainID := 1, saltNumber := 0,
    response := true, timestamp := 0, minute := 0 }

/-- A concrete message matching ackC. -/
def mC : Msg := { msgHash := Hash.base 1, repeatHash := Hash.base 2, timestamp := 0 }

/-- A concrete conflicting message (different msgHash) for the same slot. -/
def mC2 : Msg := { msgHash := Hash.base 9, repeatHash := Hash.base 10, timestamp := 0 }

/-- A fresh one-leader ProcessList at height 0. -/
def plC : ProcessList := newProcessList [⟨[5]⟩] [] 0 1000

/-- A ProcessList at height 1 whose single VM has leaderMinute 11 and an
empty, fully processed list. -/
def plC7 : ProcessList :=
  let base := newProcessList [⟨[5]⟩] [] 1 0
  { base with vms := base.vms.set 0 { newVM 0 with leaderMinute := 11 } }

/-- A VM that has already requested height 0 (mmAskTime 0). -/
def vmC8 : VM := { newVM 0 with mmRequests := some [0] }

/-- A state 2000 ms later with a congested inbound queue. -/
def stC8 : StateM := { stC with now := 2000, inMsgQueueLen := INMSGQUEUE_MED + 1 }

/-- A VM that has already requested height 2, asked at time 0. -/
def vmW1 : VM := { newVM 0 with mmRequests := some [2] }

/-- A fresh VM with a nil request map. -/
def vmW2 : VM := newVM 0

/-- A quiet state at time 5000 ms. -/
def stW2 : StateM := { stC with now := 5000 }

/-- A stale self-authored ack (timestamp 0 against a clock at 200 s). -/
def ackSelfStale : Ack :=
  { ackC with leaderChainID := 7, response := false, saltNumber := 3 }

/-- The clock at 200 s. -/
def stC3 : StateM := { stC with now := 200000 }

/-- A fresh self-authored ack whose salt number disagrees with getSalt. -/
def ackSelfBad : Ack :=
  { ackC with leaderChainID := 7, response := false, saltNumber := 99 }

/-- A one-federated-server ProcessList whose server has chain id bytes 2. -/
def plC5 : ProcessList := newProcessList [⟨[2]⟩] [] 0 0

/-- A ProcessList with two federated servers and one audit server, all
sorted, unique and disjoint. -/
def plC5w : ProcessList :=
  { plC with fedServers := [⟨[1]⟩, ⟨[3]⟩], auditServers := [⟨[2]⟩] }

/-- An ack for slot 1 whose serial hash does not extend the chain. -/
def ackBad1 : Ack :=
  { ackC with height := 1, serialHash := Hash.base 42, messageHash := Hash.base 9 }

/-- A VM with slot 0 processed and a corrupt serial hash at slot 1. -/
def vmC1 : VM :=
  { newVM 0 with height := 1, list := [some mC, some mC2],
                 listAck := [some ackC, some ackBad1] }

/-- A ProcessList holding vmC1 at VM index 0. -/
def plC1 : ProcessList := { plC with vms := plC.vms.set 0 vmC1 }

/-- An oracle environment that accepts everything. -/
def envC : ProcEnv := { replayValid := fun _ _ => true, procOk := fun _ _ => true }

/-- A VM already holding (ackC, mC) at slot 0. -/
def vmC4 : VM := vmFill (newVM 1000) 0 mC ackC

/-- A ProcessList whose VM 0 already holds (ackC, mC) at slot 0. -/
def plC4 : ProcessList := { plC with vms := plC.vms.set 0 vmC4 }

/-! Theorems. -/

theorem foldl_addmod_eq (M : Nat) :
    ∀ (l : List Nat) (v : Nat), v < M →
      l.foldl (fun v b => (v + b) % M) v = (v + l.sum) % M := by
  intro l
  induction l with
  | nil => intro v hv; simp [Nat.mod_eq_of_lt hv]
  | cons b t ih =>
    intro v hv
    have hM : 0 < M := by omega
    simp only [List.foldl_cons, List.sum_cons]
    rw [ih _ (Nat.mod_lt _ hM), Nat.mod_add_mod]
    ring_nf

/-- C9: for every hash, VMIndexFor returns 0 in single-leader mode, and
otherwise the byte sum (accumulated in a uint64) modulo the federated-server
count, a value below that count; it is a pure function of the hash bytes and
the server count, well defined whenever the count is positive. -/
theorem C9_vmIndexFor (st : StateM) (pl : ProcessList) (hash : List Nat) :
    (st.oneLeader = true → vmIndexFor st pl hash = some 0) ∧
    (st.oneLeader = false → 0 < pl.fedServers.length →
      ∃ v, vmIndexFor st pl hash = some v ∧ v < pl.fedServers.length ∧
        (hash.sum < U64MOD → v = hash.sum % pl.fedServers.length)) := by
  constructor
  · intro h; simp [vmIndexFor, h]
  · intro h hn
    have hM : (0 : Nat) < U64MOD := by decide
    have hfold : hash.foldl (fun v b => (v + b) % U64MOD) 0 = hash.sum % U64MOD := by
      rw [foldl_addmod_eq U64MOD hash 0 hM]; simp
    refine ⟨hash.sum % U64MOD % pl.fedServers.length, ?_, ?_, ?_⟩
    · simp [vmIndexFor, h, Nat.pos_iff_ne_zero.mp hn, hfold]
    · exact Nat.mod_lt _ hn
    · intro hs; rw [Nat.mod_eq_of_lt hs]

/-- C9 witness: instantiated at a concrete hash with one federated server. -/
theorem C9_witness :
    vmIndexFor stC plC [3, 4, 5] = some (12 % 1) ∧ 12 % 1 < plC.fedServers.length := by
  obtain ⟨v, hv, hlt, hval⟩ :=
    (C9_vmIndexFor stC plC [3, 4, 5]).2 (by decide) (by decide)
  have hsum : ([3, 4, 5] : List Nat).sum = 12 := by decide
  have h12 : v = 12 % 1 := by
    have := hval (by decide)
    simpa [hsum] using this
  constructor
  · rw [← h12]; exact hv
  · rw [← h12]; exact hlt

/-- C10: Complete on a nil ProcessList returns false, and whenever the
directory-block height is at most the highest saved block it returns true
without examining any VM. -/
theorem C10_complete_nil_saved (st : StateM) (pl : ProcessList) :
    complete st none = some false ∧
    (pl.dbHeight ≤ st.highestSavedBlk → complete st (some pl) = some true) := by
  refine ⟨rfl, fun h => ?_⟩
  simp [complete, h]

/-- C10 witness: a concrete already-saved ProcessList. -/
theorem C10_witness :
    complete stC none = some false ∧ complete stC (some plC) = some true :=
  ⟨(C10_complete_nil_saved stC plC).1, (C10_complete_nil_saved stC plC).2 (by decide)⟩

theorem completeVMs_eq_true_iff (pl : ProcessList) :
    ∀ l : List Nat, completeVMs pl l = some true ↔
      ∀ i ∈ l, ∃ vm, pl.vms.get? i = some vm ∧
        10 ≤ vm.leaderMinute ∧ vm.list.length ≤ vm.height := by
  intro l
  induction l with
  | nil => simp [completeVMs]
  | cons i t ih =>
    simp only [completeVMs]
    cases hvm : pl.vms.get? i with
    | none =>
      simp only [List.mem_cons]
      constructor
      · intro h; cases h
      · intro h
        obtain ⟨vm, hvm2, -⟩ := h i (Or.inl rfl)
        rw [hvm] at hvm2; cases hvm2
    | some vm =>
      by_cases hlm : vm.leaderMinute < 10
      · simp only [if_pos hlm, List.mem_cons]
        constructor
        · intro h; cases h
        · intro h
          obtain ⟨vm2, hvm2, hle, -⟩ := h i (Or.inl rfl)
          rw [hvm] at hvm2; cases hvm2; omega
      · by_cases hht : vm.height < vm.list.length
        · simp only [if_neg hlm, if_pos hht, List.mem_cons]
          constructor
          · intro h; cases h
          · intro h
            obtain ⟨vm2, hvm2, -, hle⟩ := h i (Or.inl rfl)
            rw [hvm] at hvm2; cases hvm2; omega
        · simp only [if_neg hlm, if_neg hht, ih, List.mem_cons]
          constructor
          · intro h j hj
            rcases hj with rfl | hj
            · exact ⟨vm, hvm, by omega, by omega⟩
            · exact h j hj
          · intro h j hj; exact h j (Or.inr hj)

/-- C7 counterexample: a ProcessList whose single active VM has leaderMinute
11 (not 10) and a fully processed list, yet Complete returns true, refuting
the claimed equivalence with leaderMinute equal to 10. -/
theorem C7_counterexample :
    complete stC (some plC7) = some true ∧
    ¬ (plC7.vms.getD 0 (newVM 0)).leaderMinute = 10 := by
  constructor
  · decide
  · decide

/-- C7 (amended): for a non-nil ProcessList whose height is not yet saved,
Complete returns true iff every active VM exists and has leaderMinute at
least 10 and height at least the list length (the source uses strict-less
tests, so values beyond 10 or beyond the length also pass). -/
theorem C7_complete_iff (st : StateM) (pl : ProcessList)
    (h : st.highestSavedBlk < pl.dbHeight) :
    complete st (some pl) = some true ↔
      ∀ i < pl.fedServers.length, ∃ vm, pl.vms.get? i = some vm ∧
        10 ≤ vm.leaderMinute ∧ vm.list.length ≤ vm.height := by
  have hnle : ¬ pl.dbHeight ≤ st.highestSavedBlk := by omega
  simp only [complete, if_neg hnle, completeVMs_eq_true_iff, List.mem_range]

/-- C7 witness: the amended equivalence evaluated on a concrete saturated
ProcessList. -/
theorem C7_witness : complete stC (some plC7) = some true :=
  (C7_complete_iff stC plC7 (by decide)).mpr (by decide)

/-- C6 counterexample: with three federated servers at height 0, row 1 of
the server map is not the claimed repetition 1,2,0 of row 0. -/
theorem C6_counterexample :
    (makeMap 3 0).get? 1 ≠ some ([1, 2, 0] ++ List.replicate 61 0) := by
  decide

/-- C6 (amended): with three federated servers at height 0, row 0 fills
1,2,0, and row i starts at (i+1) mod 3 because each minute advances the
rotating index by four (one pre-advance plus three fills), so row 1 fills
2,0,1; the full ten-row table is this rotation, zero-padded to 64 columns. -/
theorem C6_makeMap_table :
    makeMap 3 0 =
      List.map (fun s => [s % 3, (s + 1) % 3, (s + 2) % 3] ++ List.replicate 61 0)
        [1, 2, 0, 1, 2, 0, 1, 2, 0, 1] := by
  decide

/-- C8 counterexample: a VM whose request map already records the height,
asked again 2000 ms after mmAskTime while the inbound queue is congested:
no MissingMsg is sent and nothing changes, refuting the unconditional
re-send claimed after 2000 ms. -/
theorem C8_counterexample :
    2000 ≤ (stC8.now : Int) - (vmC8.mmAskTime : Int) ∧
    mmLookup vmC8.mmRequests 0 = true ∧
    ask stC8 0 0 0 vmC8 = (vmC8, stC8, none) := by
  exact ⟨by decide, by decide, rfl⟩

/-- C8 (amended): Ask is throttled per VM-slot.  A call for a height already
recorded in mmRequests, made less than 2000 ms after mmAskTime, sends
nothing and changes nothing.  A call 2000 ms or more after mmAskTime sends a
MissingMsg listing the next height and every null slot, sets mmAskTime to
now, resets mmRequests to exactly those heights and increments
missingRequestAskCnt — provided the height was not previously requested or
the inbound queue length is at most INMSGQUEUE_MED (otherwise back-pressure
suppresses the send). -/
theorem C8_ask_throttle (st : StateM) (dbh i h : Nat) (vm : VM) :
    (mmLookup vm.mmRequests h = true →
      (st.now : Int) - (vm.mmAskTime : Int) < 2000 →
      ask st dbh i h vm = (vm, st, none)) ∧
    (2000 ≤ (st.now : Int) - (vm.mmAskTime : Int) →
      (mmLookup vm.mmRequests h = false ∨ st.inMsgQueueLen ≤ INMSGQUEUE_MED) →
      ask st dbh i h vm =
        ({ vm with mmAskTime := st.now,
                   mmRequests := some (vm.list.length :: nilIndices vm.list) },
         { st with missingRequestAskCnt := st.missingRequestAskCnt + 1 },
         some { vmIndex := i, dbHeight := dbh,
                processListHeight := vm.list.length :: nilIndices vm.list })) ∧
    (∀ k, k ∈ nilIndices vm.list ↔ vm.list.get? k = some none) := by
  refine ⟨?_, ?_, ?_⟩
  · intro hrec hlt
    have hne : ¬ vm.mmRequests = none := by
      intro hn; rw [hn] at hrec; cases hrec
    have hcond : ¬ (vm.mmRequests = none ∨ mmLookup vm.mmRequests h = false ∨
        2000 ≤ (st.now : Int) - (vm.mmAskTime : Int)) := by
      push_neg
      exact ⟨hne, by simp [hrec], hlt⟩
    simp only [ask, if_neg hcond]
  · intro hdue hq
    have hcond : vm.mmRequests = none ∨ mmLookup vm.mmRequests h = false ∨
        2000 ≤ (st.now : Int) - (vm.mmAskTime : Int) := Or.inr (Or.inr hdue)
    have hbp : ¬ (mmLookup vm.mmRequests h = true ∧ INMSGQUEUE_MED < st.inMsgQueueLen) := by
      rintro ⟨h1, h2⟩
      rcases hq with h3 | h3
      · rw [h1] at h3; cases h3
      · omega
    simp only [ask, if_pos hcond, if_neg hbp]
    rfl
  · intro k
    simp only [nilIndices, List.mem_filter, List.mem_range, decide_eq_true_eq]
    constructor
    · exact fun h2 => h2.2
    · intro h2
      refine ⟨?_, h2⟩
      by_contra hk
      have : vm.list.get? k = none := List.get?_eq_none.mpr (by omega)
      rw [this] at h2; cases h2

/-- C8 witness: the throttled call and the 2000-ms re-send evaluated on
concrete VMs. -/
theorem C8_witness :
    ask stC 0 0 2 vmW1 = (vmW1, stC, none) ∧
    ask stW2 5 1 0 vmW2 =
      ({ vmW2 with mmAskTime := stW2.now,
                   mmRequests := some (vmW2.list.length :: nilIndices vmW2.list) },
       { stW2 with missingRequestAskCnt := stW2.missingRequestAskCnt + 1 },
       some { vmIndex := 1, dbHeight := 5,
              processListHeight := vmW2.list.length :: nilIndices vmW2.list }) :=
  ⟨(C8_ask_throttle stC 0 0 2 vmW1).1 (by decide) (by decide),
   (C8_ask_throttle stW2 5 1 0 vmW2).2.1 (by decide) (Or.inr (by decide))⟩

theorem bumpHighestAck_fields (st : StateM) (ack : Ack) :
    (bumpHighestAck st ack).identityChainID = st.identityChainID ∧
    (bumpHighestAck st ack).now = st.now ∧
    (bumpHighestAck st ack).salt = st.salt := by
  unfold bumpHighestAck
  split <;> exact ⟨rfl, rfl, rfl⟩

/-- C3: a non-response ack carrying the identity of this node is dropped with
no change to the ProcessList when older than 120 seconds; otherwise a salt
number that disagrees with getSalt(ack.timestamp) fail-stops the node (the
panic is the none result). -/
theorem C3_selfAck (st0 : StateM) (pl : ProcessList) (ack : Ack) (m : Msg) (isNew : Bool)
    (hresp : ack.response = false)
    (hlead : ack.leaderChainID = st0.identityChainID) :
    (((st0.now / 1000 : Nat) : Int) - ((ack.timestamp / 1000 : Nat) : Int) > 120 →
      ∃ st1, addToProcessList st0 pl ack m isNew = some (pl, st1)) ∧
    (¬ (((st0.now / 1000 : Nat) : Int) - ((ack.timestamp / 1000 : Nat) : Int) > 120) →
      st0.salt ack.timestamp ≠ ack.saltNumber →
      addToProcessList st0 pl ack m isNew = none) := by
  obtain ⟨hid, hnow, hsalt⟩ := bumpHighestAck_fields st0 ack
  have hself : ack.response = false ∧
      ack.leaderChainID = (bumpHighestAck st0 ack).identityChainID := by
    rw [hid]; exact ⟨hresp, hlead⟩
  constructor
  · intro hstale
    refine ⟨bumpHighestAck st0 ack, ?_⟩
    simp only [addToProcessList, if_pos hself]
    rw [if_pos (by rw [hnow]; exact hstale)]
  · intro hfresh hbadsalt
    simp only [addToProcessList, if_pos hself]
    rw [if_neg (by rw [hnow]; exact hfresh), if_pos (by rw [hsalt]; exact hbadsalt)]

/-- C3 witness: the stale self-ack drop and the salt-mismatch panic
evaluated on concrete inputs. -/
theorem C3_witness :
    (∃ st1, addToProcessList stC3 plC ackSelfStale mC true = some (plC, st1)) ∧
    addToProcessList stC plC ackSelfBad mC true = none :=
  ⟨(C3_selfAck stC3 plC ackSelfStale mC true (by decide) (by decide)).1 (by decide),
   (C3_selfAck stC plC ackSelfBad mC true (by decide) (by decide)).2
     (by decide) (by decide)⟩

/-- C4: re-admitting a pair whose message hash is already stored at the
target slot leaves the ProcessList unchanged for every replay verdict, and
does not panic, provided the admission cannot trip the self-identity salt
panic (which a prior successful admission of the same ack rules out, since
getSalt is deterministic). -/
theorem C4_duplicate_admission (st0 : StateM) (pl : ProcessList) (ack : Ack) (m : Msg)
    (isNew : Bool) (vm : VM) (m0 : Msg)
    (hvm : pl.vms.get? ack.vmIndex = some vm)
    (hslot : vm.list.get? ack.height = some (some m0))
    (hhash : m0.msgHash = m.msgHash)
    (hsafe : ack.response = true ∨ ack.leaderChainID ≠ st0.identityChainID ∨
      ((st0.now / 1000 : Nat) : Int) - ((ack.timestamp / 1000 : Nat) : Int) > 120 ∨
      st0.salt ack.timestamp = ack.saltNumber) :
    ∃ st1, addToProcessList st0 pl ack m isNew = some (pl, st1) := by
  obtain ⟨hid, hnow, hsalt⟩ := bumpHighestAck_fields st0 ack
  have hrest : ∀ st : StateM,
      addToProcessListRest st pl ack m isNew = some (pl, st) := by
    intro st
    simp only [addToProcessListRest, hvm, hslot]
    by_cases hn : isNew = false
    · rw [if_pos hn]
    · rw [if_neg hn]
      by_cases hdb : ack.dbHeight ≠ pl.dbHeight
      · rw [if_pos hdb]
      · rw [if_neg hdb, if_pos hhash]
  by_cases hself : ack.response = false ∧
      ack.leaderChainID = (bumpHighestAck st0 ack).identityChainID
  · rcases hsafe with h1 | h1 | h1 | h1
    · rw [hself.1] at h1; cases h1
    · rw [hid] at hself; exact absurd hself.2 h1
    · refine ⟨bumpHighestAck st0 ack, ?_⟩
      simp only [addToProcessList, if_pos hself]
      rw [if_pos (by rw [hnow]; exact h1)]
    · refine ⟨bumpHighestAck st0 ack, ?_⟩
      simp only [addToProcessList, if_pos hself]
      by_cases hstale : ((st0.now / 1000 : Nat) : Int) -
          ((ack.timestamp / 1000 : Nat) : Int) > 120
      · rw [if_pos (by rw [hnow]; exact hstale)]
      · rw [if_neg (by rw [hnow]; exact hstale),
          if_neg (by rw [hsalt]; simp [h1]), hrest]
  · refine ⟨bumpHighestAck st0 ack, ?_⟩
    simp only [addToProcessList, if_neg hself]
    exact hrest _

/-- C4 witness: admitting the same (ack, m) a second time on a concrete
ProcessList that already stores it. -/
theorem C4_witness :
    ∃ st1, addToProcessList stC plC4 ackC mC true = some (plC4, st1) :=
  C4_duplicate_admission stC plC4 ackC mC true vmC4 mC
    (by decide) (by decide) (by decide) (Or.inl (by decide))

theorem bubblePass_perm (l : List Server) : (bubblePass l).1.Perm l := by
  have key : ∀ (n : Nat) (l : List Server), l.length ≤ n → (bubblePass l).1.Perm l := by
    intro n
    induction n with
    | zero =>
      intro l hl
      have : l = [] := List.eq_nil_of_length_eq_zero (by omega)
      subst this; simp [bubblePass]
    | succ n ih =>
      intro l hl
      match l with
      | [] => simp [bubblePass]
      | [a] => simp [bubblePass]
      | a :: b :: rest =>
        have hlen : (a :: rest).length ≤ n := by
          simp at hl ⊢; omega
        have hlen2 : (b :: rest).length ≤ n := by
          simp at hl ⊢; omega
        by_cases hc : bytesCompare a.chainID b.chainID = Ordering.gt
        · show (bubblePass (a :: b :: rest)).1.Perm _
          rw [show bubblePass (a :: b :: rest) =
              (b :: (bubblePass (a :: rest)).1, false) by simp [bubblePass, hc]]
          exact ((ih _ hlen).cons b).trans (List.Perm.swap a b rest)
        · show (bubblePass (a :: b :: rest)).1.Perm _
          rw [show bubblePass (a :: b :: rest) =
              (a :: (bubblePass (b :: rest)).1, (bubblePass (b :: rest)).2) by
                simp [bubblePass, hc]]
          exact (ih _ hlen2).cons a
  exact key l.length l (Nat.le_refl _)

theorem sortPasses_perm : ∀ (n : Nat) (l : List Server), (sortPasses l n).Perm l := by
  intro n
  induction n with
  | zero => intro l; simp [sortPasses]
  | succ n ih =>
    intro l
    show (if (bubblePass l).2 then (bubblePass l).1 else sortPasses (bubblePass l).1 n).Perm l
    split
    · exact bubblePass_perm l
    · exact (ih _).trans (bubblePass_perm l)

theorem sortServers_perm (l : List Server) : (sortServers l).Perm l :=
  sortPasses_perm _ l

theorem chainIDs_sortServers_perm (l : List Server) :
    (chainIDs (sortServers l)).Perm (chainIDs l) :=
  (sortServers_perm l).map Server.chainID

theorem findIndexEq_found_iff (id : List Nat) :
    ∀ l : List Server, (findIndexEq id l).1 = true ↔ id ∈ chainIDs l := by
  intro l
  induction l with
  | nil => simp [findIndexEq, chainIDs]
  | cons s rest ih =>
    by_cases hs : s.chainID = id
    · simp [findIndexEq, hs, chainIDs]
    · simp only [findIndexEq, if_neg hs, chainIDs, List.map_cons, List.mem_cons]
      rw [ih]
      constructor
      · intro h; exact Or.inr h
      · rintro (h | h)
        · exact absurd h.symm hs
        · exact h

theorem findIndexEq_not_found_idx (id : List Nat) :
    ∀ l : List Server, (findIndexEq id l).1 = false → (findIndexEq id l).2 = l.length := by
  intro l
  induction l with
  | nil => intro; simp [findIndexEq]
  | cons s rest ih =>
    intro h
    by_cases hs : s.chainID = id
    · rw [show findIndexEq id (s :: rest) = (true, 0) by simp [findIndexEq, hs]] at h
      cases h
    · rw [show findIndexEq id (s :: rest) =
          ((findIndexEq id rest).1, (findIndexEq id rest).2 + 1) by
            simp [findIndexEq, hs]] at h ⊢
      simp only [List.length_cons]
      rw [ih h]

theorem findIndexEq_erase_not_mem (id : List Nat) :
    ∀ l : List Server, (chainIDs l).Nodup → (findIndexEq id l).1 = true →
      id ∉ chainIDs (l.eraseIdx (findIndexEq id l).2) := by
  intro l
  induction l with
  | nil => intro _ h; cases h
  | cons s rest ih =>
    intro hnd hf
    have hcons : chainIDs (s :: rest) = s.chainID :: chainIDs rest := by
      simp [chainIDs]
    rw [hcons, List.nodup_cons] at hnd
    by_cases hs : s.chainID = id
    · rw [show findIndexEq id (s :: rest) = (true, 0) by simp [findIndexEq, hs]]
      show id ∉ chainIDs rest
      rw [hs] at hnd
      exact hnd.1
    · rw [show findIndexEq id (s :: rest) =
          ((findIndexEq id rest).1, (findIndexEq id rest).2 + 1) by
            simp [findIndexEq, hs]] at hf ⊢
      show id ∉ chainIDs (s :: rest.eraseIdx (findIndexEq id rest).2)
      simp only [chainIDs, List.map_cons, List.mem_cons]
      rintro (h | h)
      · exact hs h.symm
      · exact ih hnd.2 hf h

theorem chainIDs_eraseIdx_sublist (l : List Server) (i : Nat) :
    (chainIDs (l.eraseIdx i)).Sublist (chainIDs l) :=
  (List.eraseIdx_sublist l i).map Server.chainID

theorem insertIdxAt_length (l : List Server) (s : Server) :
    insertIdxAt l l.length s = l ++ [s] := by
  simp [insertIdxAt, List.take_length, List.drop_length]

/-- Shape of removeAuditServerHash: erase at the found index, or no change. -/
theorem removeAuditServerHash_shape (pl : ProcessList) (id : List Nat) :
    (removeAuditServerHash pl id).fedServers = pl.fedServers ∧
    (((findIndexEq id pl.auditServers).1 = true ∧
      (removeAuditServerHash pl id).auditServers =
        pl.auditServers.eraseIdx (findIndexEq id pl.auditServers).2) ∨
     ((findIndexEq id pl.auditServers).1 = false ∧
      (removeAuditServerHash pl id).auditServers = pl.auditServers)) := by
  unfold removeAuditServerHash
  by_cases h : (findIndexEq id pl.auditServers).1
  · rw [if_pos h]
    exact ⟨rfl, Or.inl ⟨h, rfl⟩⟩
  · rw [if_neg h]
    exact ⟨rfl, Or.inr ⟨by simpa using h, rfl⟩⟩

/-- Shape of removeFedServerHash: erase the federated entry, or fall back to
audit removal. -/
theorem removeFedServerHash_shape (pl : ProcessList) (id : List Nat) :
    (((findIndexEq id pl.fedServers).1 = true ∧
      (removeFedServerHash pl id).fedServers =
        pl.fedServers.eraseIdx (findIndexEq id pl.fedServers).2 ∧
      (removeFedServerHash pl id).auditServers = pl.auditServers) ∨
     ((findIndexEq id pl.fedServers).1 = false ∧
      removeFedServerHash pl id = removeAuditServerHash pl id)) := by
  unfold removeFedServerHash
  by_cases h : (findIndexEq id pl.fedServers).1
  · rw [if_pos h]
    exact Or.inl ⟨h, rfl, rfl⟩
  · rw [if_neg h]
    exact Or.inr ⟨by simpa using h, rfl⟩

/-- Shape of addFedServer on the membership lists. -/
theorem addFedServer_shape (pl : ProcessList) (id : List Nat) :
    (((findIndexEq id (sortServers pl.fedServers)).1 = true ∧
      (addFedServer pl id).1.fedServers = sortServers pl.fedServers ∧
      (addFedServer pl id).1.auditServers = pl.auditServers) ∨
     ((findIndexEq id (sortServers pl.fedServers)).1 = false ∧
      (addFedServer pl id).1.fedServers =
        sortServers pl.fedServers ++ [{ chainID := id }] ∧
      (((findIndexEq id pl.auditServers).1 = true ∧
        (addFedServer pl id).1.auditServers =
          pl.auditServers.eraseIdx (findIndexEq id pl.auditServers).2) ∨
       ((findIndexEq id pl.auditServers).1 = false ∧
        (addFedServer pl id).1.auditServers = pl.auditServers)))) := by
  by_cases h : (findIndexEq id (sortServers pl.fedServers)).1 = true
  · refine Or.inl ⟨h, ?_, ?_⟩ <;> simp only [addFedServer, h, if_true]
  · have hb : (findIndexEq id (sortServers pl.fedServers)).1 = false := by
      simpa using h
    by_cases ha : (findIndexEq id pl.auditServers).1 = true
    · refine Or.inr ⟨hb, ?_, Or.inl ⟨ha, ?_⟩⟩ <;>
        simp only [addFedServer, h, ha, if_true, if_false] <;>
        simp only [hb, Bool.false_eq_true, if_false]
      rw [findIndexEq_not_found_idx id _ hb]
      exact insertIdxAt_length _ _
    · have hab : (findIndexEq id pl.auditServers).1 = false := by simpa using ha
      refine Or.inr ⟨hb, ?_, Or.inr ⟨hab, ?_⟩⟩ <;>
        simp only [addFedServer, h, ha, if_true, if_false] <;>
        simp only [hb, hab, Bool.false_eq_true, if_false]
      rw [findIndexEq_not_found_idx id _ hb]
      exact insertIdxAt_length _ _

/-- Shape of addAuditServer on the membership lists. -/
theorem addAuditServer_shape (pl : ProcessList) (id : List Nat) :
    (((findIndexEq id pl.auditServers).1 = true ∧
      (addAuditServer pl id).1.fedServers = pl.fedServers ∧
      (addAuditServer pl id).1.auditServers = pl.auditServers) ∨
     ((findIndexEq id pl.auditServers).1 = false ∧
      (addAuditServer pl id).1.auditServers =
        pl.auditServers ++ [{ chainID := id }] ∧
      (((findIndexEq id pl.fedServers).1 = true ∧
        (addAuditServer pl id).1.fedServers =
          pl.fedServers.eraseIdx (findIndexEq id pl.fedServers).2) ∨
       ((findIndexEq id pl.fedServers).1 = false ∧
        (addAuditServer pl id).1.fedServers = pl.fedServers)))) := by
  by_cases h : (findIndexEq id pl.auditServers).1 = true
  · refine Or.inl ⟨h, ?_, ?_⟩ <;> simp only [addAuditServer, h, if_true]
  · have hb : (findIndexEq id pl.auditServers).1 = false := by simpa using h
    by_cases hf : (findIndexEq id pl.fedServers).1 = true
    · refine Or.inr ⟨hb, ?_, ?_⟩
      · simp only [addAuditServer, h, hf, if_true, if_false]
        simp only [hb, Bool.false_eq_true, if_false]
        rcases removeFedServerHash_shape pl id with ⟨-, -, haud⟩ | ⟨hff, -⟩
        · rw [haud, findIndexEq_not_found_idx id _ hb]
          exact insertIdxAt_length _ _
        · rw [hf] at hff; cases hff
      · rcases removeFedServerHash_shape pl id with ⟨-, hfed, -⟩ | ⟨hff, -⟩
        · refine Or.inl ⟨hf, ?_⟩
          simp only [addAuditServer, h, hf, if_true, if_false]
          simp only [hb, Bool.false_eq_true, if_false]
          exact hfed
        · rw [hf] at hff; cases hff
    · have hfb : (findIndexEq id pl.fedServers).1 = false := by simpa using hf
      refine Or.inr ⟨hb, ?_, Or.inr ⟨hfb, ?_⟩⟩ <;>
        simp only [addAuditServer, h, hf, if_true, if_false] <;>
        simp only [hb, hfb, Bool.false_eq_true, if_false]
      rw [findIndexEq_not_found_idx id _ hb]
      exact insertIdxAt_length _ _

theorem chainIDs_append (l1 l2 : List Server) :
    chainIDs (l1 ++ l2) = chainIDs l1 ++ chainIDs l2 :=
  List.map_append _ l1 l2

theorem nodup_concat_of (l : List (List Nat)) (x : List Nat)
    (h1 : l.Nodup) (h2 : x ∉ l) : (l ++ [x]).Nodup := by
  simp [List.nodup_append, h1, h2]

theorem not_mem_of_not_found (id : List Nat) (l : List Server)
    (h : (findIndexEq id l).1 = false) : id ∉ chainIDs l := by
  intro hm
  rw [(findIndexEq_found_iff id l).mpr hm] at h
  cases h

theorem removeAuditServerHash_membOK (pl : ProcessList) (id : List Nat)
    (h : membOK pl) : membOK (removeAuditServerHash pl id) := by
  obtain ⟨hfed, haud, hdisj⟩ := h
  obtain ⟨hfs, hsh⟩ := removeAuditServerHash_shape pl id
  have hsub : (chainIDs (removeAuditServerHash pl id).auditServers).Sublist
      (chainIDs pl.auditServers) := by
    rcases hsh with ⟨-, he⟩ | ⟨-, he⟩
    · rw [he]; exact chainIDs_eraseIdx_sublist _ _
    · rw [he]
  refine ⟨by rw [hfs]; exact hfed, List.Nodup.sublist hsub haud, ?_⟩
  intro c hc hmem
  rw [hfs] at hc
  exact hdisj c hc (hsub.subset hmem)

theorem removeFedServerHash_membOK (pl : ProcessList) (id : List Nat)
    (h : membOK pl) : membOK (removeFedServerHash pl id) := by
  rcases removeFedServerHash_shape pl id with ⟨-, hfe, hau⟩ | ⟨-, heq⟩
  · obtain ⟨hfed, haud, hdisj⟩ := h
    have hsub : (chainIDs (removeFedServerHash pl id).fedServers).Sublist
        (chainIDs pl.fedServers) := by
      rw [hfe]; exact chainIDs_eraseIdx_sublist _ _
    refine ⟨List.Nodup.sublist hsub hfed, by rw [hau]; exact haud, ?_⟩
    intro c hc hmem
    rw [hau] at hmem
    exact hdisj c (hsub.subset hc) hmem
  · rw [heq]
    exact removeAuditServerHash_membOK pl id h

theorem addFedServer_membOK (pl : ProcessList) (id : List Nat)
    (h : membOK pl) : membOK (addFedServer pl id).1 := by
  obtain ⟨hfed, haud, hdisj⟩ := h
  have hperm := chainIDs_sortServers_perm pl.fedServers
  have hfed2 : (chainIDs (sortServers pl.fedServers)).Nodup := hperm.nodup_iff.mpr hfed
  rcases addFedServer_shape pl id with ⟨-, hfe, hau⟩ | ⟨hb, hfe, hsh⟩
  · refine ⟨by rw [hfe]; exact hfed2, by rw [hau]; exact haud, ?_⟩
    intro c hc hmem
    rw [hfe] at hc
    rw [hau] at hmem
    exact hdisj c (hperm.mem_iff.mp hc) hmem
  · have hnew : id ∉ chainIDs (sortServers pl.fedServers) := by
      intro hm
      rw [(findIndexEq_found_iff id _).mpr hm] at hb
      cases hb
    have hfed3 : (chainIDs (addFedServer pl id).1.fedServers).Nodup := by
      rw [hfe, chainIDs_append]
      exact nodup_concat_of _ _ hfed2 hnew
    have hmemfed : ∀ c ∈ chainIDs (addFedServer pl id).1.fedServers,
        c ∈ chainIDs (sortServers pl.fedServers) ∨ c = id := by
      intro c hc
      rw [hfe, chainIDs_append] at hc
      rcases List.mem_append.mp hc with hc1 | hc1
      · exact Or.inl hc1
      · right
        simpa [chainIDs] using hc1
    rcases hsh with ⟨haf, hau⟩ | ⟨haf, hau⟩
    · refine ⟨hfed3, ?_, ?_⟩
      · rw [hau]
        exact List.Nodup.sublist (chainIDs_eraseIdx_sublist _ _) haud
      · intro c hc hmem
        rw [hau] at hmem
        rcases hmemfed c hc with hc1 | rfl
        · exact hdisj c (hperm.mem_iff.mp hc1)
            ((chainIDs_eraseIdx_sublist _ _).subset hmem)
        · exact findIndexEq_erase_not_mem c pl.auditServers haud haf hmem
    · refine ⟨hfed3, by rw [hau]; exact haud, ?_⟩
      intro c hc hmem
      rw [hau] at hmem
      rcases hmemfed c hc with hc1 | rfl
      · exact hdisj c (hperm.mem_iff.mp hc1) hmem
      · exact not_mem_of_not_found c pl.auditServers haf hmem

theorem addAuditServer_membOK (pl : ProcessList) (id : List Nat)
    (h : membOK pl) : membOK (addAuditServer pl id).1 := by
  obtain ⟨hfed, haud, hdisj⟩ := h
  rcases addAuditServer_shape pl id with ⟨-, hfe, hau⟩ | ⟨hb, hau, hsh⟩
  · exact ⟨by rw [hfe]; exact hfed, by rw [hau]; exact haud, by
      intro c hc hmem
      rw [hfe] at hc; rw [hau] at hmem
      exact hdisj c hc hmem⟩
  · have hidaud : id ∉ chainIDs pl.auditServers := not_mem_of_not_found id _ hb
    have haud2 : (chainIDs (addAuditServer pl id).1.auditServers).Nodup := by
      rw [hau, chainIDs_append]
      exact nodup_concat_of _ _ haud hidaud
    have hmemaud : ∀ c, c ∈ chainIDs (addAuditServer pl id).1.auditServers ↔
        c ∈ chainIDs pl.auditServers ∨ c = id := by
      intro c
      rw [hau, chainIDs_append]
      simp [chainIDs]
    rcases hsh with ⟨hff, hfe⟩ | ⟨hff, hfe⟩
    · have hsub : (chainIDs (addAuditServer pl id).1.fedServers).Sublist
          (chainIDs pl.fedServers) := by
        rw [hfe]; exact chainIDs_eraseIdx_sublist _ _
      have hidfed : id ∉ chainIDs (addAuditServer pl id).1.fedServers := by
        rw [hfe]
        exact findIndexEq_erase_not_mem id pl.fedServers hfed hff
      refine ⟨List.Nodup.sublist hsub hfed, haud2, ?_⟩
      intro c hc hmem
      rcases (hmemaud c).mp hmem with hm1 | rfl
      · exact hdisj c (hsub.subset hc) hm1
      · exact hidfed hc
    · have hidfed : id ∉ chainIDs pl.fedServers := not_mem_of_not_found id _ hff
      refine ⟨by rw [hfe]; exact hfed, haud2, ?_⟩
      intro c hc hmem
      rw [hfe] at hc
      rcases (hmemaud c).mp hmem with hm1 | rfl
      · exact hdisj c hc hm1
      · exact hidfed hc

theorem removeAuditServerHash_sorted (pl : ProcessList) (id : List Nat)
    (h : membSorted pl) : membSorted (removeAuditServerHash pl id) := by
  obtain ⟨hfs, hsh⟩ := removeAuditServerHash_shape pl id
  refine ⟨by rw [hfs]; exact h.1, ?_⟩
  rcases hsh with ⟨-, he⟩ | ⟨-, he⟩
  · rw [he]
    exact List.Pairwise.sublist (List.eraseIdx_sublist _ _) h.2
  · rw [he]; exact h.2

theorem removeFedServerHash_sorted (pl : ProcessList) (id : List Nat)
    (h : membSorted pl) : membSorted (removeFedServerHash pl id) := by
  rcases removeFedServerHash_shape pl id with ⟨-, hfe, hau⟩ | ⟨-, heq⟩
  · refine ⟨?_, by rw [hau]; exact h.2⟩
    rw [hfe]
    exact List.Pairwise.sublist (List.eraseIdx_sublist _ _) h.1
  · rw [heq]
    exact removeAuditServerHash_sorted pl id h

/-- C5 counterexample: AddFedServer inserts the new server at the end of the
list (the not-found scan returns the length as insertion point) after
sorting only at entry, so adding chain id 1 to a federation holding chain
id 2 leaves fedServers out of order, refuting the claim that every
membership mutation restores sortedness. -/
theorem C5_counterexample :
    ¬ (addFedServer plC5 [1]).1.fedServers.Pairwise
        (fun a b => bytesLe a.chainID b.chainID) := by
  decide

/-- C5 (amended): every membership mutator preserves per-list uniqueness and
cross-list disjointness of the chain ids, and the two removal mutators
preserve ascending sort order of both lists; AddFedServer and AddAuditServer
append the new server at the end of its list (sorting fedServers only at
entry of AddFedServer), so the mutated list need not be sorted afterwards. -/
theorem C5_mutators (pl : ProcessList) (id : List Nat) :
    (membOK pl →
      membOK (addFedServer pl id).1 ∧ membOK (addAuditServer pl id).1 ∧
      membOK (removeFedServerHash pl id) ∧ membOK (removeAuditServerHash pl id)) ∧
    (membSorted pl →
      membSorted (removeFedServerHash pl id) ∧
      membSorted (removeAuditServerHash pl id)) := by
  constructor
  · intro h
    exact ⟨addFedServer_membOK pl id h, addAuditServer_membOK pl id h,
      removeFedServerHash_membOK pl id h, removeAuditServerHash_membOK pl id h⟩
  · intro h
    exact ⟨removeFedServerHash_sorted pl id h, removeAuditServerHash_sorted pl id h⟩

/-- C5 witness: the amended preservation statement evaluated on a concrete
federation of two leaders and one audit server. -/
theorem C5_witness :
    membOK (addFedServer plC5w [2]).1 ∧ membSorted (removeFedServerHash plC5w [1]) :=
  ⟨((C5_mutators plC5w [2]).1 (by decide)).1,
   ((C5_mutators plC5w [1]).2 (by decide)).1⟩

theorem faultBookkeeping_core (st : StateM) (vm : VM) :
    (faultBookkeeping st vm).height = vm.height ∧
    (faultBookkeeping st vm).list = vm.list ∧
    (faultBookkeeping st vm).listAck = vm.listAck ∧
    (faultBookkeeping st vm).synced = vm.synced ∧
    (faultBookkeeping st vm).processTime = vm.processTime ∧
    (faultBookkeeping st vm).leaderMinute = vm.leaderMinute := by
  unfold faultBookkeeping markFault markNoFault
  split
  · exact ⟨rfl, rfl, rfl, rfl, rfl, rfl⟩
  · split
    · split
      · exact ⟨rfl, rfl, rfl, rfl, rfl, rfl⟩
      · exact ⟨rfl, rfl, rfl, rfl, rfl, rfl⟩
    · split
      · exact ⟨rfl, rfl, rfl, rfl, rfl, rfl⟩
      · exact ⟨rfl, rfl, rfl, rfl, rfl, rfl⟩

theorem ask_core (st : StateM) (dbh i h : Nat) (vm : VM) :
    (ask st dbh i h vm).1.height = vm.height ∧
    (ask st dbh i h vm).1.list = vm.list ∧
    (ask st dbh i h vm).1.listAck = vm.listAck ∧
    (ask st dbh i h vm).1.leaderMinute = vm.leaderMinute := by
  simp only [ask]
  (repeat' split) <;> exact ⟨rfl, rfl, rfl, rfl⟩

theorem list_map_set_of_eq {α β : Type} (f : α → β) :
    ∀ (l : List α) (i : Nat) (a b : α), l.get? i = some a → f b = f a →
      (l.set i b).map f = l.map f := by
  intro l
  induction l with
  | nil => intro i a b h _; cases h
  | cons x t ih =>
    intro i a b h hf
    cases i with
    | zero =>
      cases h
      simp [List.set, hf]
    | succ n =>
      simp only [List.set, List.map_cons]
      rw [ih n a b h hf]

theorem preLoop_skip (st : StateM) (dbh i : Nat) (vm : VM)
    (h : ¬ vm.height = vm.list.length) : preLoop st dbh i vm = (vm, st) := by
  have hc1 : ¬ (vm.height = vm.list.length ∧ st.syncing = true ∧ vm.synced = false) := by
    rintro ⟨h1, -⟩; exact h h1
  have hc2 : ¬ (vm.height = vm.list.length ∧
      2000 < (st.now : Int) - (vm.processTime : Int)) := by
    rintro ⟨h1, -⟩; exact h h1
  simp only [preLoop, if_neg hc1]
  rw [if_neg hc2]

theorem vmLoop_serial_fail (env : ProcEnv) (i dbh : Nat) (st : StateM) (vm : VM)
    (nhtp : Nat → Nat) (fuel : Nat) (progress : Bool) (m : Msg) (a aprev : Ack)
    (hj1 : 1 ≤ vm.height)
    (hm : vm.list.get? vm.height = some (some m))
    (ha : vm.listAck.get? vm.height = some (some a))
    (hprev : vm.listAck.get? (vm.height - 1) = some (some aprev))
    (hbad : createHash aprev.messageHash a.messageHash ≠ a.serialHash)
    (hfuel : 0 < fuel) :
    vmLoop env i dbh st vm nhtp vm.height fuel progress
      = some (vm, { st with resetCalled := true }, nhtp, progress, true) := by
  obtain ⟨f, rfl⟩ : ∃ f, fuel = f + 1 := ⟨fuel - 1, by omega⟩
  have h0 : ¬ vm.height = 0 := by omega
  have hdec : decide (createHash aprev.messageHash a.messageHash ≠ a.serialHash) = true :=
    decide_eq_true hbad
  simp only [vmLoop, hm, ha, if_neg h0, hprev, hdec]

/-- C1: when a VM reaches a filled slot j equal to its height with j at
least 1 and the recomputed serial hash of the previous and current message
hashes differs from the stored serial hash, the VM loop calls state.Reset,
reports the whole-call abort, and leaves the VM untouched; lifted through
the per-VM driver, Process returns at once with resetCalled set and with
every VM height in the ProcessList unchanged. -/
theorem C1_serial_hash_reset (env : ProcEnv) (i dbh : Nat) (st : StateM) (vm : VM)
    (nhtp : Nat → Nat) (fuel : Nat) (progress : Bool)
    (pl : ProcessList) (rest : List Nat) (prog : Bool) (m : Msg) (a aprev : Ack)
    (hj1 : 1 ≤ vm.height)
    (hm : vm.list.get? vm.height = some (some m))
    (ha : vm.listAck.get? vm.height = some (some a))
    (hprev : vm.listAck.get? (vm.height - 1) = some (some aprev))
    (hbad : createHash aprev.messageHash a.messageHash ≠ a.serialHash)
    (hfuel : 0 < fuel)
    (hpl : pl.vms.get? i = some vm) :
    vmLoop env i dbh st vm nhtp vm.height fuel progress
      = some (vm, { st with resetCalled := true }, nhtp, progress, true) ∧
    ∃ pl2 st2 prog2,
      procVMs env st pl (i :: rest) prog = some (pl2, st2, prog2) ∧
      st2.resetCalled = true ∧
      pl2.vms.map VM.height = pl.vms.map VM.height := by
  refine ⟨vmLoop_serial_fail env i dbh st vm nhtp fuel progress m a aprev
    hj1 hm ha hprev hbad hfuel, ?_⟩
  obtain ⟨e1, e2, e3, e4, e5, e6⟩ := faultBookkeeping_core st vm
  have hlt : vm.height < vm.list.length := by
    obtain ⟨hl, -⟩ := List.get?_eq_some.mp hm
    exact hl
  have hskip := preLoop_skip st pl.dbHeight i (faultBookkeeping st vm)
    (by rw [e1, e2]; omega)
  have hloop := vmLoop_serial_fail env i pl.dbHeight st (faultBookkeeping st vm)
    pl.nextHeightToProcess ((faultBookkeeping st vm).list.length + 1) prog m a aprev
    (by rw [e1]; exact hj1) (by rw [e1, e2]; exact hm) (by rw [e1, e3]; exact ha)
    (by rw [e1, e3]; exact hprev) hbad (by omega)
  refine ⟨?_, ?_, ?_, ?_, ?_, ?_⟩
  · exact { pl with
      vms := pl.vms.set i (faultBookkeeping st vm),
      nextHeightToProcess := pl.nextHeightToProcess }
  · exact { st with resetCalled := true }
  · exact prog
  · simp only [procVMs, hpl, faultCheck, hskip, hloop, if_true]
  · rfl
  · show (pl.vms.set i (faultBookkeeping st vm)).map VM.height = pl.vms.map VM.height
    exact list_map_set_of_eq VM.height pl.vms i vm (faultBookkeeping st vm) hpl e1

/-- C1 witness: a concrete VM whose slot 1 carries a corrupt serial hash. -/
theorem C1_witness :
    vmLoop envC 0 0 stC vmC1 (fun _ => 0) vmC1.height 3 false
      = some (vmC1, { stC with resetCalled := true }, (fun _ => 0), false, true) ∧
    ∃ pl2 st2 prog2,
      procVMs envC stC plC1 [0] false = some (pl2, st2, prog2) ∧
      st2.resetCalled = true ∧
      pl2.vms.map VM.height = plC1.vms.map VM.height :=
  C1_serial_hash_reset envC 0 0 stC vmC1 (fun _ => 0) 3 false plC1 [] false mC2 ackBad1 ackC
    (by decide) (by decide) (by decide) (by decide) (by decide) (by decide) (by decide)

theorem get?_some_lt {α : Type} {l : List α} {k : Nat} {x : α}
    (h : l.get? k = some x) : k < l.length := by
  by_contra hk
  rw [List.get?_eq_none.mpr (by omega)] at h
  cases h

theorem get?_set_self {α : Type} : ∀ (l : List α) (n : Nat) (a : α),
    n < l.length → (l.set n a).get? n = some a := by
  intro l
  induction l with
  | nil => intro n a h; simp at h
  | cons x t ih =>
    intro n a h
    cases n with
    | zero => rfl
    | succ k =>
      simp only [List.set, List.get?]
      exact ih k a (by simp at h; omega)

theorem growTo_length {α : Type} (l : List (Option α)) (n : Nat) :
    (growTo l n).length = l.length + (n + 1 - l.length) := by
  simp [growTo]

theorem lt_growTo_length {α : Type} (l : List (Option α)) (n : Nat) :
    n < (growTo l n).length := by
  rw [growTo_length]; omega

theorem growTo_get?_lt {α : Type} (l : List (Option α)) (n k : Nat)
    (h : k < l.length) : (growTo l n).get? k = l.get? k :=
  List.get?_append h

theorem growTo_get?_cases {α : Type} (l : List (Option α)) (n k : Nat) (x : Option α)
    (h : (growTo l n).get? k = some x) : l.get? k = some x ∨ x = none := by
  by_cases hk : k < l.length
  · rw [growTo_get?_lt l n k hk] at h
    exact Or.inl h
  · right
    rw [show growTo l n = l ++ List.replicate (n + 1 - l.length) none from rfl,
      List.get?_append_right (by omega)] at h
    exact List.eq_of_mem_replicate (List.get?_mem h)

theorem vmInv_congr (vm vm' : VM) (h1 : vm'.list = vm.list)
    (h2 : vm'.listAck = vm.listAck) (h3 : vm'.height = vm.height)
    (h : vmInv vm) : vmInv vm' := by
  unfold vmInv at h ⊢
  rw [h1, h2, h3]
  exact h

theorem vmInv_newVM (now : Nat) : vmInv (newVM now) := by
  refine ⟨rfl, by simp [newVM], ?_, ?_⟩
  · intro k m h; cases h
  · intro k h; simp [newVM] at h

theorem vmInv_ask (st : StateM) (dbh i h : Nat) (vm : VM) (hv : vmInv vm) :
    vmInv (ask st dbh i h vm).1 := by
  obtain ⟨e1, e2, e3, -⟩ := ask_core st dbh i h vm
  exact vmInv_congr vm _ e2 e3 e1 hv

theorem vmInv_fb (st : StateM) (vm : VM) (hv : vmInv vm) :
    vmInv (faultBookkeeping st vm) := by
  obtain ⟨e1, e2, e3, -, -, -⟩ := faultBookkeeping_core st vm
  exact vmInv_congr vm _ e2 e3 e1 hv

theorem preLoop_core (st : StateM) (dbh i : Nat) (vm : VM) :
    (preLoop st dbh i vm).1.height = vm.height ∧
    (preLoop st dbh i vm).1.list = vm.list ∧
    (preLoop st dbh i vm).1.listAck = vm.listAck := by
  unfold preLoop
  obtain ⟨a1, a2, a3, -⟩ := ask_core st dbh i vm.height vm
  by_cases hc1 : vm.height = vm.list.length ∧ st.syncing = true ∧ vm.synced = false
  · simp only [if_pos hc1]
    set w := (ask st dbh i vm.height vm).1 with hw
    set stw := (ask st dbh i vm.height vm).2.1 with hstw
    obtain ⟨b1, b2, b3, -⟩ := ask_core stw dbh i w.height w
    split
    · exact ⟨by rw [b1, a1], by rw [b2, a2], by rw [b3, a3]⟩
    · exact ⟨a1, a2, a3⟩
  · simp only [if_neg hc1]
    obtain ⟨c1, c2, c3, -⟩ := ask_core st dbh i vm.height vm
    split
    · exact ⟨c1, c2, c3⟩
    · exact ⟨rfl, rfl, rfl⟩

theorem vmInv_preLoop (st : StateM) (dbh i : Nat) (vm : VM) (hv : vmInv vm) :
    vmInv (preLoop st dbh i vm).1 := by
  obtain ⟨e1, e2, e3⟩ := preLoop_core st dbh i vm
  exact vmInv_congr vm _ e2 e3 e1 hv

theorem vmInv_setNone (vm : VM) (j : Nat) (hv : vmInv vm) :
    vmInv { vm with list := vm.list.set j none } := by
  obtain ⟨hlen, hh, hc, hd⟩ := hv
  refine ⟨by simp [List.length_set, hlen], by simp [List.length_set, hh], ?_, hd⟩
  intro k m h
  by_cases hk : j = k
  · subst hk
    rw [List.get?_set_eq] at h
    cases he : vm.list.get? j with
    | none => rw [he] at h; cases h
    | some x => rw [he] at h; cases h
  · rw [List.get?_set_ne _ _ hk] at h
    exact hc k m h

theorem vmInv_fill (vm : VM) (h : Nat) (m : Msg) (ack : Ack) (hv : vmInv vm) :
    vmInv (vmFill vm h m ack) := by
  obtain ⟨hlen, hh, hc, hd⟩ := hv
  have hleng : (growTo vm.list h).length = (growTo vm.listAck h).length := by
    rw [growTo_length, growTo_length, hlen]
  refine ⟨?_, ?_, ?_, ?_⟩
  · show ((growTo vm.list h).set h (some m)).length =
      ((growTo vm.listAck h).set h (some ack)).length
    rw [List.length_set, List.length_set, hleng]
  · show vm.height ≤ ((growTo vm.list h).set h (some m)).length
    rw [List.length_set, growTo_length]
    omega
  · intro k m' hget
    simp only [vmFill] at hget
    show ∃ a, ((growTo vm.listAck h).set h (some ack)).get? k = some (some a)
    by_cases hk : h = k
    · subst hk
      exact ⟨ack, get?_set_self _ h (some ack) (lt_growTo_length _ _)⟩
    · rw [List.get?_set_ne _ _ hk] at hget
      rcases growTo_get?_cases vm.list h k (some m') hget with hold | hnone
      · obtain ⟨a, ha⟩ := hc k m' hold
        have hklt : k < vm.listAck.length := get?_some_lt ha
        refine ⟨a, ?_⟩
        rw [List.get?_set_ne _ _ hk, growTo_get?_lt _ _ _ hklt]
        exact ha
      · cases hnone
  · intro k hk
    obtain ⟨a0, ha0⟩ := hd k hk
    show ∃ a, ((growTo vm.listAck h).set h (some ack)).get? k = some (some a)
    by_cases hkh : h = k
    · subst hkh
      exact ⟨ack, get?_set_self _ h (some ack) (lt_growTo_length _ _)⟩
    · have hklt : k < vm.listAck.length := get?_some_lt ha0
      refine ⟨a0, ?_⟩
      rw [List.get?_set_ne _ _ hkh, growTo_get?_lt _ _ _ hklt]
      exact ha0

theorem plInv_set (pl : ProcessList) (i : Nat) (v : VM) (nh : Nat → Nat)
    (hp : plInv pl) (hv : vmInv v) :
    plInv { pl with vms := pl.vms.set i v, nextHeightToProcess := nh } := by
  intro vm hvm
  rcases List.mem_or_eq_of_mem_set hvm with hm | rfl
  · exact hp vm hm
  · exact hv

theorem addToProcessListRest_plInv (st : StateM) (pl : ProcessList) (ack : Ack)
    (m : Msg) (isNew : Bool) (res : ProcessList × StateM)
    (hp : plInv pl) (h : addToProcessListRest st pl ack m isNew = some res) :
    plInv res.1 := by
  unfold addToProcessListRest at h
  split at h
  · cases h
  · next vm hvm =>
    have hvminv : vmInv vm := hp vm (List.get?_mem hvm)
    split at h
    · split at h
      · cases h; exact hp
      · split at h
        · cases h; exact hp
        · split at h
          · cases h; exact hp
          · cases h
            exact plInv_set pl ack.vmIndex _ _ hp (vmInv_setNone vm ack.height hvminv)
    · split at h
      · cases h; exact hp
      · cases h
        exact plInv_set pl ack.vmIndex _ _ hp (vmInv_fill vm ack.height m ack hvminv)

theorem addToProcessList_plInv (st : StateM) (pl : ProcessList) (ack : Ack)
    (m : Msg) (isNew : Bool) (res : ProcessList × StateM)
    (hp : plInv pl) (h : addToProcessList st pl ack m isNew = some res) :
    plInv res.1 := by
  simp only [addToProcessList] at h
  split at h
  · split at h
    · cases h; exact hp
    · split at h
      · cases h
      · exact addToProcessListRest_plInv _ pl ack m isNew res hp h
  · exact addToProcessListRest_plInv _ pl ack m isNew res hp h

theorem vmLoop_inv (env : ProcEnv) (i dbh : Nat) :
    ∀ (fuel : Nat) (st : StateM) (vm : VM) (nhtp : Nat → Nat) (progress : Bool)
      (res : VM × StateM × (Nat → Nat) × Bool × Bool),
      vmInv vm →
      vmLoop env i dbh st vm nhtp vm.height fuel progress = some res →
      vmInv res.1 := by
  intro fuel
  induction fuel with
  | zero =>
    intro st vm nhtp progress res hv h
    simp only [vmLoop] at h
    cases h
    exact hv
  | succ f ih =>
    intro st vm nhtp progress res hv h
    simp only [vmLoop] at h
    split at h
    · cases h; exact hv
    · cases h; exact vmInv_ask st dbh i vm.height vm hv
    · next msg hm =>
      split at h
      · cases h
      · cases h
      · next thisAck hthis =>
        split at h
        · cases h
        · cases h; exact hv
        · split at h
          · split at h
            · cases h
              exact vmInv_setNone vm vm.height hv
            · split at h
              · have hlt : vm.height < vm.list.length := get?_some_lt hm
                obtain ⟨hlen, hh, hc, hd⟩ := hv
                have hv2 : vmInv { vm with
                    processTime := st.now,
                    heartBeat := 0,
                    height := vm.height + 1 } := by
                  refine ⟨hlen, ?_, hc, ?_⟩
                  · show vm.height + 1 ≤ vm.list.length
                    omega
                  · intro k hk
                    have hk2 : k < vm.height + 1 := hk
                    rcases Nat.lt_succ_iff_lt_or_eq.mp hk2 with hk3 | rfl
                    · exact hd k hk3
                    · exact ⟨thisAck, hthis⟩
                exact ih st _ _ true res hv2 h
              · cases h
                exact vmInv_congr vm _ rfl rfl rfl ⟨hv.1, hv.2.1, hv.2.2.1, hv.2.2.2⟩
          · cases h; exact hv

theorem procVMs_inv (env : ProcEnv) :
    ∀ (idxs : List Nat) (st : StateM) (pl : ProcessList) (prog : Bool)
      (res : ProcessList × StateM × Bool),
      plInv pl → procVMs env st pl idxs prog = some res → plInv res.1 := by
  intro idxs
  induction idxs with
  | nil =>
    intro st pl prog res hp h
    simp only [procVMs] at h
    cases h
    exact hp
  | cons i rest ih =>
    intro st pl prog res hp h
    simp only [procVMs, faultCheck] at h
    split at h
    · cases h
    · next vm0 hvm0 =>
      have hv0 : vmInv vm0 := hp vm0 (List.get?_mem hvm0)
      have hvpre : vmInv (preLoop st pl.dbHeight i (faultBookkeeping st vm0)).1 :=
        vmInv_preLoop _ _ _ _ (vmInv_fb st vm0 hv0)
      split at h
      · cases h
      · next vm2 st2 nhtp2 progress2 returnAll hloop =>
        have hv2 : vmInv vm2 :=
          vmLoop_inv env i pl.dbHeight _ _ _ _ prog
            (vm2, st2, nhtp2, progress2, returnAll) hvpre hloop
        split at h
        · cases h
          exact plInv_set pl i vm2 nhtp2 hp hv2
        · exact ih st2 _ progress2 res (plInv_set pl i vm2 nhtp2 hp hv2) h

theorem process_plInv (env : ProcEnv) (st : StateM) (pl : ProcessList)
    (res : ProcessList × StateM × Bool)
    (hp : plInv pl) (h : process env st pl = some res) : plInv res.1 := by
  simp only [process] at h
  split at h
  · cases h; exact hp
  · exact procVMs_inv env (List.range pl.fedServers.length) _ pl false res hp h

theorem runOps_plInv : ∀ (ops : List Op) (pl : ProcessList),
    plInv pl → plInv (runOps pl ops) := by
  intro ops
  induction ops with
  | nil => intro pl hp; exact hp
  | cons op rest ih =>
    intro pl hp
    cases op with
    | add st ack m isNew =>
      simp only [runOps]
      split
      · exact hp
      · next pl1 st1 hadd =>
        exact ih pl1 (addToProcessList_plInv st pl ack m isNew (pl1, st1) hp hadd)
    | procO st env =>
      simp only [runOps]
      split
      · exact hp
      · next pl1 st1 prog1 hproc =>
        exact ih pl1 (process_plInv env st pl (pl1, st1, prog1) hp hproc)

theorem newProcessList_plInv (feds auds : List Server) (dbh now : Nat) :
    plInv (newProcessList feds auds dbh now) := by
  intro vm hvm
  have := List.eq_of_mem_replicate hvm
  subst this
  exact vmInv_newVM now

/-- C2 counterexample: admitting (ackC, mC) and then a conflicting message
with a different msgHash at the same slot nulls only the message slot, so
list slot 0 is null while listAck slot 0 still holds the ack, refuting the
claimed equivalence list slot null iff listAck slot null. -/
theorem C2_counterexample :
    ((runOps plC [Op.add stC ackC mC true, Op.add stC ackC mC2 true]).vms.getD 0
        (newVM 0)).list.get? 0 = some none ∧
    ¬ ((runOps plC [Op.add stC ackC mC true, Op.add stC ackC mC2 true]).vms.getD 0
        (newVM 0)).listAck.get? 0 = some none :=
  ⟨by decide, by decide⟩

/-- C2 (amended): after any sequence of admissions and processor runs from a
fresh ProcessList, every VM satisfies: the two slices have equal length, the
height is between 0 and the list length, a non-null message slot always has
a non-null ack slot, and every slot below the height keeps a non-null ack
slot.  The full claimed iff fails: the conflicting-admission branch and the
failed-replay branch null only the message slot, so a null message slot may
retain its ack, including below the processed height. -/
theorem C2_invariant (feds auds : List Server) (dbh now : Nat) (ops : List Op) :
    plInv (runOps (newProcessList feds auds dbh now) ops) :=
  runOps_plInv ops _ (newProcessList_plInv feds auds dbh now)

end Factomd
